import Mathlib

/-!
# Verification of libcpr: FICLONE/FICLONERANGE clone with deep-copy fallback

Shallow embedding of `src/libcpr.c`. Files are byte lists (`List Nat`), file
positions explicit naturals. The outcomes of the system calls the library
issues — `ioctl(FICLONE*)`, `lseek`, `malloc`, `read`, `write` — are supplied
by an explicit environment of events, so that interrupted calls (`EINTR`),
short writes, and genuine errors can all be expressed. The copy loop recurses
structurally on the event trace; when the trace runs out before the loop is
done, the result is `none` (undetermined), and every claim is stated over
results of the form `some _`.

Reads on a regular file at position `p` deliver `min requested (size - p)`
bytes; writes at position `p` overwrite in place, zero-padding a gap when the
position lies beyond the current end of file, and extend the file as needed —
matching POSIX regular-file semantics, which is the setting of the spec.
-/

namespace Libcpr

/-- `errno` value `EINVAL` (invalid argument), as returned by the validation
checks in `qtm_clone_file` / `qtm_clone_file_range`. -/
def EINVAL : Nat := 22

/-- `errno` value `ENOMEM` (out of memory), returned when the block buffer
allocation fails in `deep_copy_file_range_impl`. -/
def ENOMEM : Nat := 12

/-- `errno` value `ERANGE`, returned on premature end-of-source in a
fixed-length deep copy. -/
def ERANGE : Nat := 34

/-- Outcome of one `read(2)` call: it either succeeds (delivering
`min requested (size - pos)` bytes, regular-file semantics), is interrupted
(`errno == EINTR`, no bytes consumed), or fails with some other `errno`. -/
inductive ReadEv where
  | ok    : ReadEv
  | eintr : ReadEv
  | err   : Nat → ReadEv
deriving DecidableEq, Repr

/-- Outcome of one `write(2)` call: success writing up to `k` bytes (the call
may be short), interruption (`errno == EINTR`), or failure with some other
`errno`. -/
inductive WriteEv where
  | ok    : Nat → WriteEv
  | eintr : WriteEv
  | err   : Nat → WriteEv
deriving DecidableEq, Repr

/-- Outcome of one `lseek` call as seen through `seek_file`: success, or an
`errno` value. -/
inductive SeekRes where
  | ok  : SeekRes
  | err : Nat → SeekRes
deriving DecidableEq, Repr

/-- The environment of one `deep_copy_file_range_impl` invocation: the results
of the two seeks, whether `malloc` succeeds, and the traces of read and write
call outcomes (reads and writes act on distinct descriptors, so two separate
traces suffice). -/
structure CopyEnv where
  seekSrc  : SeekRes
  seekDst  : SeekRes
  mallocOk : Bool
  reads    : List ReadEv
  writes   : List WriteEv
deriving Repr

/-- A read event is well formed when, if it is a failure, its `errno` is
nonzero (a failed system call always sets a nonzero `errno`). -/
def readEvWf : ReadEv → Bool
  | ReadEv.err n => decide (n ≠ 0)
  | _ => true

/-- A write event is well formed when, if it is a failure, its `errno` is
nonzero. -/
def writeEvWf : WriteEv → Bool
  | WriteEv.err n => decide (n ≠ 0)
  | _ => true

/-- A seek result is well formed when, if it is a failure, its `errno` is
nonzero. -/
def seekResWf : SeekRes → Bool
  | SeekRes.err n => decide (n ≠ 0)
  | _ => true

/-- A well-formed read trace: every failure carries a nonzero `errno`. -/
def wfReads (evs : List ReadEv) : Prop :=
  ∀ e ∈ evs, readEvWf e = true

/-- A well-formed write trace: every failure carries a nonzero `errno`. -/
def wfWrites (evs : List WriteEv) : Prop :=
  ∀ e ∈ evs, writeEvWf e = true

/-- Well-formedness of a whole copy environment: failed seeks and failed
reads/writes carry nonzero `errno` values. -/
def CopyEnv.wf (env : CopyEnv) : Prop :=
  seekResWf env.seekSrc = true ∧ seekResWf env.seekDst = true ∧
  wfReads env.reads ∧ wfWrites env.writes

instance (evs : List ReadEv) : Decidable (wfReads evs) :=
  List.decidableBAll _ evs

instance (evs : List WriteEv) : Decidable (wfWrites evs) :=
  List.decidableBAll _ evs

instance (env : CopyEnv) : Decidable env.wf := by
  unfold CopyEnv.wf
  infer_instance

/-- The content of the destination file up to position `pos`, zero-filled
past its current end of file: what precedes freshly written data. -/
def padTo (dst : List Nat) (pos : Nat) : List Nat :=
  dst.take pos ++ List.replicate (pos - dst.length) 0

/-- Effect of writing `data` into file `dst` at position `pos`: bytes before
`pos` are kept, a gap past end of file is zero-filled, `data` overwrites in
place, and bytes after the written region are kept. Writing nothing leaves the
file untouched. -/
def writeAt (dst : List Nat) (pos : Nat) (data : List Nat) : List Nat :=
  if data = [] then dst
  else padTo dst pos ++ data ++ dst.drop (pos + data.length)

/-- Embedding of `write_block` (libcpr.c:179–205): write `data` to the
destination file at `pos`, looping until everything is written, retrying on
`EINTR`, aborting with the `errno` of any other failure. Each loop iteration
consumes one event; result is `(rc, dst, pos, remaining write events)`, or
`none` when the trace is exhausted first. -/
def write_block : List Nat → Nat → List Nat → List WriteEv →
    Option (Nat × List Nat × Nat × List WriteEv)
  | dst, pos, [], evs => some (0, dst, pos, evs)
  | _,   _,   _ :: _, [] => none
  | dst, pos, b :: data, ev :: evs =>
    match ev with
    | WriteEv.eintr => write_block dst pos (b :: data) evs
    | WriteEv.err e => some (e, dst, pos, evs)
    | WriteEv.ok k =>
      let n := min k (b :: data).length
      write_block (writeAt dst pos ((b :: data).take n)) (pos + n)
        ((b :: data).drop n) evs

/-- Embedding of the copy loop of `deep_copy_file_range_impl`
(libcpr.c:249–288). Parameters mirror the C locals: `src` is the source
content, `length` and `block_size` the request, `srcPos`/`dstPos` the file
positions established by the seeks, `dst` the destination content, `remain`
the loop counter. Each iteration consumes one read event; the result is
`(rc, final destination content)`, or `none` when the event traces run out. -/
def copy_loop (src : List Nat) (length block_size : Nat) :
    Nat → Nat → List Nat → Nat → List ReadEv → List WriteEv →
    Option (Nat × List Nat)
  | _, _, dst, 0, _, _ => some (0, dst)
  | _, _, _, _ + 1, [], _ => none
  | srcPos, dstPos, dst, remain + 1, rev :: reads, writes =>
    match rev with
    | ReadEv.eintr => copy_loop src length block_size srcPos dstPos dst
        (remain + 1) reads writes
    | ReadEv.err e => some (e, dst)
    | ReadEv.ok =>
      let read_max := min block_size (remain + 1)
      let read_now := min read_max (src.length - srcPos)
      if read_now = 0 ∧ length = 0 then
        some (0, dst)
      else if read_now = 0 ∧ remain + 1 ≠ 0 then
        some (ERANGE, dst)
      else
        match write_block dst dstPos ((src.drop srcPos).take read_now) writes with
        | none => none
        | some (rc, dst2, dstPos2, writes2) =>
          if rc ≠ 0 then some (rc, dst2)
          else
            copy_loop src length block_size (srcPos + read_now) dstPos2 dst2
              (if length ≠ 0 then remain + 1 - read_now else remain + 1)
              reads writes2

/-- Embedding of `deep_copy_file_range_impl` (libcpr.c:221–294): seek source
to `src_offset`, then destination to `dst_offset` (either failure aborts with
its code), allocate the block buffer (failure aborts with `ENOMEM`), then run
the copy loop with `remain` initialised to `length` when nonzero, else to
`block_size`. -/
def deep_copy_file_range_impl (env : CopyEnv) (src dst : List Nat)
    (src_offset dst_offset length block_size : Nat) :
    Option (Nat × List Nat) :=
  match env.seekSrc with
  | SeekRes.err e => some (e, dst)
  | SeekRes.ok =>
    match env.seekDst with
    | SeekRes.err e => some (e, dst)
    | SeekRes.ok =>
      if env.mallocOk = false then some (ENOMEM, dst)
      else
        copy_loop src length block_size src_offset dst_offset dst
          (if length ≠ 0 then length else block_size) env.reads env.writes

/-- Environment of one public-operation invocation: the result of the native
`FICLONE`/`FICLONERANGE` attempt (`0` for success, an `errno` otherwise) and
the environment of the deep-copy fallback, should it run. -/
structure CloneEnv where
  native : Nat
  copy   : CopyEnv
deriving Repr

/-- Models the platform contract of a successful `FICLONERANGE` (spec §4.1):
on success the destination range at `dst_offset` is overwritten with the
source bytes at `[src_offset, src_offset + length)`, `length = 0` meaning to
source end of file. The kernel side of the ioctl is outside the repository;
only byte-equality of the ranges is guaranteed. -/
def native_range_effect (src dst : List Nat)
    (src_offset dst_offset length : Nat) : List Nat :=
  writeAt dst dst_offset
    (if length = 0 then src.drop src_offset
     else (src.drop src_offset).take length)

/-- Models the platform contract of a successful whole-file `FICLONE`
(spec §4.1): the destination becomes a byte-for-byte clone of the entire
source, including its size. -/
def native_clone_effect (src _dst : List Nat) : List Nat := src

/-- Embedding of `qtm_clone_file` (libcpr.c:298–318): validate, attempt the
native whole-file clone, and on failure with fallback enabled run the deep
copy with span `(0, 0, length = 0)`. Returns `(rc, destination content)`. -/
def qtm_clone_file (env : CloneEnv) (src_fd dst_fd : Int)
    (src dst : List Nat) (fallback_copy : Bool)
    (fallback_copy_block_size : Nat) : Option (Nat × List Nat) :=
  if src_fd < 0 ∨ dst_fd < 0 ∨
      (fallback_copy = true ∧ fallback_copy_block_size = 0) then
    some (EINVAL, dst)
  else if env.native = 0 then
    some (0, native_clone_effect src dst)
  else if fallback_copy then
    deep_copy_file_range_impl env.copy src dst 0 0 0 fallback_copy_block_size
  else
    some (env.native, dst)

/-- Embedding of `qtm_clone_file_range` (libcpr.c:322–346): validate
(including non-negative offsets), attempt the native range clone, and on
failure with fallback enabled run the deep copy with the same span. -/
def qtm_clone_file_range (env : CloneEnv) (src_fd dst_fd : Int)
    (src_offset dst_offset : Int) (src dst : List Nat) (length : Nat)
    (fallback_copy : Bool) (fallback_copy_block_size : Nat) :
    Option (Nat × List Nat) :=
  if src_fd < 0 ∨ dst_fd < 0 ∨ src_offset < 0 ∨ dst_offset < 0 ∨
      (fallback_copy = true ∧ fallback_copy_block_size = 0) then
    some (EINVAL, dst)
  else if env.native = 0 then
    some (0, native_range_effect src dst src_offset.toNat dst_offset.toNat length)
  else if fallback_copy then
    deep_copy_file_range_impl env.copy src dst src_offset.toNat
      dst_offset.toNat length fallback_copy_block_size
  else
    some (env.native, dst)

/-- The all-successful environment with `n` read events and `n` write events,
each write delivering up to `k` bytes. -/
def happyEnv (n k : Nat) : CopyEnv :=
  { seekSrc := SeekRes.ok, seekDst := SeekRes.ok, mallocOk := true,
    reads := List.replicate n ReadEv.ok,
    writes := List.replicate n (WriteEv.ok k) }

end Libcpr

namespace Libcpr

example :
    deep_copy_file_range_impl (happyEnv 4 3) [1, 2, 3, 4, 5] [] 0 0 0 3 =
      some (0, [1, 2, 3, 4, 5]) := by decide

example :
    deep_copy_file_range_impl (happyEnv 4 3) [1, 2, 3, 4, 5] [9, 9] 1 0 2 3 =
      some (0, [2, 3]) := by decide

example :
    deep_copy_file_range_impl (happyEnv 4 3) [1, 2, 3] [] 1 0 5 3 =
      some (ERANGE, [2, 3]) := by decide

/-! ### Algebra of `writeAt` -/

lemma padTo_length (dst : List Nat) (pos : Nat) : (padTo dst pos).length = pos := by
  simp only [padTo, List.length_append, List.length_take, List.length_replicate]
  omega

lemma writeAt_nil (dst : List Nat) (pos : Nat) : writeAt dst pos [] = dst := by
  simp [writeAt]

lemma writeAt_length (dst : List Nat) (pos : Nat) (data : List Nat)
    (h : data ≠ []) :
    (writeAt dst pos data).length = pos + data.length +
      (dst.length - (pos + data.length)) := by
  simp [writeAt, h, padTo_length, List.length_append, List.length_drop]
  omega

lemma writeAt_shape (dst : List Nat) (pos : Nat) (data : List Nat)
    (h : data ≠ []) :
    writeAt dst pos data =
      (padTo dst pos ++ data) ++ dst.drop (pos + data.length) := by
  simp [writeAt, h, List.append_assoc]

lemma padTo_writeAt (dst : List Nat) (pos : Nat) (d1 : List Nat) (h1 : d1 ≠ []) :
    padTo (writeAt dst pos d1) (pos + d1.length) = padTo dst pos ++ d1 := by
  have hlen : (padTo dst pos ++ d1).length = pos + d1.length := by
    simp [List.length_append, padTo_length]
  rw [writeAt_shape dst pos d1 h1]
  have hz : pos + d1.length -
      ((padTo dst pos ++ d1) ++ dst.drop (pos + d1.length)).length = 0 := by
    simp [List.length_append, padTo_length]
  conv_lhs => rw [padTo]
  rw [List.take_left' hlen, hz]
  simp

lemma writeAt_drop_high (dst : List Nat) (pos : Nat) (d1 : List Nat)
    (h1 : d1 ≠ []) (k : Nat) :
    (writeAt dst pos d1).drop (pos + d1.length + k) =
      dst.drop (pos + d1.length + k) := by
  have hlen : (padTo dst pos ++ d1).length = pos + d1.length := by
    simp [List.length_append, padTo_length]
  rw [writeAt_shape dst pos d1 h1]
  rw [show pos + d1.length + k = (padTo dst pos ++ d1).length + k by rw [hlen]]
  rw [List.drop_append, List.drop_drop, hlen]

lemma writeAt_writeAt (dst : List Nat) (pos : Nat) (d1 d2 : List Nat) :
    writeAt (writeAt dst pos d1) (pos + d1.length) d2 =
      writeAt dst pos (d1 ++ d2) := by
  rcases eq_or_ne d1 [] with h1 | h1
  · subst h1; simp [writeAt_nil]
  rcases eq_or_ne d2 [] with h2 | h2
  · subst h2; simp [writeAt_nil]
  have h12 : d1 ++ d2 ≠ [] := by simp [h1]
  rw [writeAt_shape _ _ d2 h2, writeAt_shape dst pos (d1 ++ d2) h12,
    padTo_writeAt dst pos d1 h1]
  have hdrop : (writeAt dst pos d1).drop (pos + d1.length + d2.length) =
      dst.drop (pos + d1.length + d2.length) :=
    writeAt_drop_high dst pos d1 h1 d2.length
  rw [hdrop]
  simp [List.append_assoc, List.length_append, Nat.add_assoc]

lemma writeAt_drop_take (dst : List Nat) (pos : Nat) (d : List Nat) :
    ((writeAt dst pos d).drop pos).take d.length = d := by
  rcases eq_or_ne d [] with h | h
  · subst h; simp
  · rw [writeAt_shape dst pos d h, List.append_assoc,
      List.drop_left' (padTo_length dst pos), List.take_left]

lemma writeAt_getElem_low (dst : List Nat) (pos : Nat) (d : List Nat) (i : Nat)
    (h1 : i < pos) (h2 : i < dst.length) :
    (writeAt dst pos d)[i]? = dst[i]? := by
  rcases eq_or_ne d [] with h | h
  · subst h; rw [writeAt_nil]
  · rw [writeAt_shape dst pos d h]
    have hp : i < (padTo dst pos ++ d).length := by
      simp only [List.length_append, padTo_length]; omega
    rw [List.getElem?_append_left hp]
    have hp2 : i < (padTo dst pos).length := by rw [padTo_length]; exact h1
    rw [List.getElem?_append_left hp2]
    unfold padTo
    have ht : i < (dst.take pos).length := by
      rw [List.length_take]; omega
    rw [List.getElem?_append_left ht, List.getElem?_take_of_lt h1]

lemma writeAt_getElem_high (dst : List Nat) (pos : Nat) (d : List Nat) (i : Nat)
    (h : pos + d.length ≤ i) :
    (writeAt dst pos d)[i]? = dst[i]? := by
  rcases eq_or_ne d [] with hd | hd
  · subst hd; rw [writeAt_nil]
  · rw [writeAt_shape dst pos d hd]
    have hlen : (padTo dst pos ++ d).length = pos + d.length := by
      simp only [List.length_append, padTo_length]
    have hge : (padTo dst pos ++ d).length ≤ i := by omega
    rw [List.getElem?_append_right hge, List.getElem?_drop, hlen]
    congr 1
    omega

lemma writeAt_zero_covers (dst d : List Nat) (h : dst.length ≤ d.length) :
    writeAt dst 0 d = d := by
  rcases eq_or_ne d [] with hd | hd
  · subst hd
    simp only [List.length_nil, Nat.le_zero, List.length_eq_zero] at h
    subst h; rw [writeAt_nil]
  · have hdrop : dst.drop (0 + d.length) = [] := List.drop_eq_nil_iff.mpr (by omega)
    rw [writeAt, if_neg hd, hdrop]
    simp [padTo]

lemma drop_take_split (src : List Nat) (p n m : Nat) (h : n ≤ m) :
    (src.drop p).take m =
      (src.drop p).take n ++ (src.drop (p + n)).take (m - n) := by
  conv_lhs => rw [show m = n + (m - n) by omega, List.take_add]
  rw [List.drop_drop]

lemma drop_take_append (src : List Nat) (p n : Nat) :
    (src.drop p).take n ++ src.drop (p + n) = src.drop p := by
  rw [← List.drop_drop, List.take_append_drop]

/-! ### Behaviour of `write_block` -/

lemma write_block_nil (dst : List Nat) (pos : Nat) (evs : List WriteEv) :
    write_block dst pos [] evs = some (0, dst, pos, evs) := by
  cases evs <;> rfl

lemma write_block_exhausted (dst : List Nat) (pos b : Nat) (d : List Nat) :
    write_block dst pos (b :: d) [] = none := rfl

lemma write_block_eintr (dst : List Nat) (pos b : Nat) (d : List Nat)
    (evs : List WriteEv) :
    write_block dst pos (b :: d) (WriteEv.eintr :: evs) =
      write_block dst pos (b :: d) evs := rfl

lemma write_block_err (dst : List Nat) (pos b : Nat) (d : List Nat)
    (e : Nat) (evs : List WriteEv) :
    write_block dst pos (b :: d) (WriteEv.err e :: evs) =
      some (e, dst, pos, evs) := rfl

lemma write_block_full (dst : List Nat) (pos : Nat) (data : List Nat)
    (hne : data ≠ []) (k : Nat) (hk : data.length ≤ k) (evs : List WriteEv) :
    write_block dst pos data (WriteEv.ok k :: evs) =
      some (0, writeAt dst pos data, pos + data.length, evs) := by
  cases data with
  | nil => exact absurd rfl hne
  | cons b d =>
    have hmin : min k (b :: d).length = (b :: d).length := Nat.min_eq_right hk
    simp only [write_block, hmin, List.take_length, List.drop_length,
      write_block_nil]

lemma write_block_ok_of_wf :
    ∀ (evs : List WriteEv) (data dst : List Nat) (pos : Nat)
      (rc : Nat) (dst2 : List Nat) (pos2 : Nat) (evs2 : List WriteEv),
    wfWrites evs →
    write_block dst pos data evs = some (rc, dst2, pos2, evs2) →
    wfWrites evs2 ∧
      (rc = 0 → dst2 = writeAt dst pos data ∧ pos2 = pos + data.length) := by
  intro evs
  induction evs with
  | nil =>
    intro data dst pos rc dst2 pos2 evs2 hwf hrun
    cases data with
    | nil =>
      rw [write_block_nil] at hrun
      simp only [Option.some.injEq, Prod.mk.injEq] at hrun
      obtain ⟨h1, h2, h3, h4⟩ := hrun
      subst h1; subst h2; subst h3; subst h4
      exact ⟨hwf, fun _ => ⟨(writeAt_nil dst pos).symm, by simp⟩⟩
    | cons b d => exact absurd hrun (by rw [write_block_exhausted]; simp)
  | cons ev evs ih =>
    intro data dst pos rc dst2 pos2 evs2 hwf hrun
    have hwf' : wfWrites evs := fun e he => hwf e (List.mem_cons_of_mem _ he)
    cases data with
    | nil =>
      rw [write_block_nil] at hrun
      simp only [Option.some.injEq, Prod.mk.injEq] at hrun
      obtain ⟨h1, h2, h3, h4⟩ := hrun
      subst h1; subst h2; subst h3; subst h4
      exact ⟨hwf, fun _ => ⟨(writeAt_nil dst pos).symm, by simp⟩⟩
    | cons b d =>
      cases ev with
      | eintr =>
        rw [write_block_eintr] at hrun
        exact ih _ _ _ _ _ _ _ hwf' hrun
      | err e =>
        rw [write_block_err] at hrun
        simp only [Option.some.injEq, Prod.mk.injEq] at hrun
        obtain ⟨h1, h2, h3, h4⟩ := hrun
        refine ⟨h4 ▸ hwf', fun h0 => ?_⟩
        have hne0 := hwf (WriteEv.err e) (List.mem_cons_self _ _)
        simp only [writeEvWf, decide_eq_true_eq] at hne0
        exact absurd (by omega) hne0
      | ok k =>
        simp only [write_block] at hrun
        have hrec := ih _ _ _ _ _ _ _ hwf' hrun
        refine ⟨hrec.1, fun h0 => ?_⟩
        obtain ⟨hd2, hp2⟩ := hrec.2 h0
        have hnlen : ((b :: d).take (min k (b :: d).length)).length =
            min k (b :: d).length := by
          rw [List.length_take]
          exact Nat.min_eq_left (Nat.min_le_right _ _)
        constructor
        · rw [hd2]
          have := writeAt_writeAt dst pos ((b :: d).take (min k (b :: d).length))
            ((b :: d).drop (min k (b :: d).length))
          rw [hnlen] at this
          rw [this, List.take_append_drop]
        · rw [hp2, List.length_drop]
          have := Nat.min_le_right k (b :: d).length
          omega

/-! ### Behaviour of the copy loop -/

lemma copy_loop_zero (src : List Nat) (L bs sp dp : Nat) (dst : List Nat)
    (reads : List ReadEv) (writes : List WriteEv) :
    copy_loop src L bs sp dp dst 0 reads writes = some (0, dst) := by
  cases reads <;> rfl

lemma copy_loop_exhausted (src : List Nat) (L bs sp dp r : Nat)
    (dst : List Nat) (writes : List WriteEv) :
    copy_loop src L bs sp dp dst (r + 1) [] writes = none := rfl

lemma copy_loop_eintr (src : List Nat) (L bs sp dp r : Nat) (dst : List Nat)
    (reads : List ReadEv) (writes : List WriteEv) :
    copy_loop src L bs sp dp dst (r + 1) (ReadEv.eintr :: reads) writes =
      copy_loop src L bs sp dp dst (r + 1) reads writes := rfl

lemma copy_loop_err (src : List Nat) (L bs sp dp r e : Nat) (dst : List Nat)
    (reads : List ReadEv) (writes : List WriteEv) :
    copy_loop src L bs sp dp dst (r + 1) (ReadEv.err e :: reads) writes =
      some (e, dst) := rfl

lemma copy_loop_fixed_inv (src : List Nat) (L bs : Nat) (hL : L ≠ 0) :
    ∀ (reads : List ReadEv) (writes : List WriteEv) (sp dp : Nat)
      (dst : List Nat) (remain : Nat) (rc : Nat) (dst' : List Nat),
    wfReads reads → wfWrites writes →
    remain ≤ src.length - sp →
    copy_loop src L bs sp dp dst remain reads writes = some (rc, dst') →
    rc = 0 → dst' = writeAt dst dp ((src.drop sp).take remain) := by
  intro reads
  induction reads with
  | nil =>
    intro writes sp dp dst remain rc dst' _ _ _ hrun _
    cases remain with
    | zero =>
      rw [copy_loop_zero] at hrun
      simp only [Option.some.injEq, Prod.mk.injEq] at hrun
      rw [← hrun.2]
      simp [writeAt_nil]
    | succ r => exact absurd hrun (by rw [copy_loop_exhausted]; simp)
  | cons rev reads ih =>
    intro writes sp dp dst remain rc dst' hwr hww hrem hrun h0
    have hwr' : wfReads reads := fun e he => hwr e (List.mem_cons_of_mem _ he)
    cases remain with
    | zero =>
      rw [copy_loop_zero] at hrun
      simp only [Option.some.injEq, Prod.mk.injEq] at hrun
      rw [← hrun.2]
      simp [writeAt_nil]
    | succ r =>
      cases rev with
      | eintr =>
        rw [copy_loop_eintr] at hrun
        exact ih writes sp dp dst (r + 1) rc dst' hwr' hww hrem hrun h0
      | err e =>
        rw [copy_loop_err] at hrun
        simp only [Option.some.injEq, Prod.mk.injEq] at hrun
        have hne0 := hwr (ReadEv.err e) (List.mem_cons_self _ _)
        simp only [readEvWf, decide_eq_true_eq] at hne0
        exact absurd (by omega : e = 0) hne0
      | ok =>
        subst h0
        simp only [copy_loop] at hrun
        by_cases h0rn : min (min bs (r + 1)) (src.length - sp) = 0
        · rw [if_neg (fun hc => hL hc.2),
            if_pos ⟨h0rn, Nat.succ_ne_zero r⟩] at hrun
          simp only [Option.some.injEq, Prod.mk.injEq] at hrun
          exact absurd hrun.1 (by simp [ERANGE])
        · rw [if_neg (fun hc => hL hc.2), if_neg (fun hc => h0rn hc.1)] at hrun
          have hrn_le : min (min bs (r + 1)) (src.length - sp) ≤
              src.length - sp := Nat.min_le_right _ _
          have hrn_r : min (min bs (r + 1)) (src.length - sp) ≤ r + 1 := by
            have := Nat.min_le_left bs (r + 1)
            have := Nat.min_le_left (min bs (r + 1)) (src.length - sp)
            omega
          rcases hwb : write_block dst dp
              ((src.drop sp).take (min (min bs (r + 1)) (src.length - sp)))
              writes with _ | ⟨rc1, dst2, dp2, writes2⟩
          · rw [hwb] at hrun; exact absurd hrun (by simp)
          · rw [hwb] at hrun
            dsimp only at hrun
            rw [if_pos hL] at hrun
            by_cases hrc1 : rc1 = 0
            · rw [if_neg (show ¬rc1 ≠ 0 by simp [hrc1])] at hrun
              obtain ⟨hww2, hfull⟩ :=
                write_block_ok_of_wf writes _ dst dp rc1 dst2 dp2 writes2 hww hwb
              obtain ⟨hdst2, hdp2⟩ := hfull hrc1
              have hup := ih writes2 (sp + min (min bs (r + 1)) (src.length - sp))
                dp2 dst2 (r + 1 - min (min bs (r + 1)) (src.length - sp)) 0 dst'
                hwr' hww2 (by omega) hrun rfl
              rw [hup, hdst2, hdp2, writeAt_writeAt]
              congr 1
              rw [drop_take_split src sp
                (min (min bs (r + 1)) (src.length - sp)) (r + 1) hrn_r]
            · rw [if_pos (show rc1 ≠ 0 from hrc1)] at hrun
              simp only [Option.some.injEq, Prod.mk.injEq] at hrun
              exact absurd hrun.1 hrc1

lemma copy_loop_eof_inv (src : List Nat) (bs : Nat) (hbs : 0 < bs) :
    ∀ (reads : List ReadEv) (writes : List WriteEv) (sp dp : Nat)
      (dst : List Nat) (rc : Nat) (dst' : List Nat),
    wfReads reads → wfWrites writes →
    copy_loop src 0 bs sp dp dst bs reads writes = some (rc, dst') →
    rc = 0 → dst' = writeAt dst dp (src.drop sp) := by
  obtain ⟨B, rfl⟩ : ∃ B, bs = B + 1 := ⟨bs - 1, by omega⟩
  intro reads
  induction reads with
  | nil =>
    intro writes sp dp dst rc dst' _ _ hrun _
    exact absurd hrun (by rw [copy_loop_exhausted]; simp)
  | cons rev reads ih =>
    intro writes sp dp dst rc dst' hwr hww hrun h0
    have hwr' : wfReads reads := fun e he => hwr e (List.mem_cons_of_mem _ he)
    cases rev with
    | eintr =>
      rw [copy_loop_eintr] at hrun
      exact ih writes sp dp dst rc dst' hwr' hww hrun h0
    | err e =>
      rw [copy_loop_err] at hrun
      simp only [Option.some.injEq, Prod.mk.injEq] at hrun
      have hne0 := hwr (ReadEv.err e) (List.mem_cons_self _ _)
      simp only [readEvWf, decide_eq_true_eq] at hne0
      exact absurd (by omega : e = 0) hne0
    | ok =>
      subst h0
      simp only [copy_loop] at hrun
      by_cases h0rn : min (min (B + 1) (B + 1)) (src.length - sp) = 0
      · rw [if_pos ⟨h0rn, trivial⟩] at hrun
        simp only [Option.some.injEq, Prod.mk.injEq] at hrun
        have hdropnil : src.drop sp = [] := by
          rw [List.drop_eq_nil_iff]
          omega
        rw [← hrun.2, hdropnil, writeAt_nil]
      · rw [if_neg (fun hc => h0rn hc.1), if_neg (fun hc => h0rn hc.1)] at hrun
        have hrn_le : min (min (B + 1) (B + 1)) (src.length - sp) ≤
            src.length - sp := Nat.min_le_right _ _
        rcases hwb : write_block dst dp
            ((src.drop sp).take (min (min (B + 1) (B + 1)) (src.length - sp)))
            writes with _ | ⟨rc1, dst2, dp2, writes2⟩
        · rw [hwb] at hrun; exact absurd hrun (by simp)
        · rw [hwb] at hrun
          dsimp only at hrun
          rw [if_neg (show ¬(0 : Nat) ≠ 0 by simp)] at hrun
          by_cases hrc1 : rc1 = 0
          · rw [if_neg (show ¬rc1 ≠ 0 by simp [hrc1])] at hrun
            obtain ⟨hww2, hfull⟩ :=
              write_block_ok_of_wf writes _ dst dp rc1 dst2 dp2 writes2 hww hwb
            obtain ⟨hdst2, hdp2⟩ := hfull hrc1
            have hup := ih writes2
              (sp + min (min (B + 1) (B + 1)) (src.length - sp))
              dp2 dst2 0 dst' hwr' hww2 hrun rfl
            rw [hup, hdst2, hdp2, writeAt_writeAt]
            congr 1
            exact drop_take_append src sp _
          · rw [if_pos (show rc1 ≠ 0 from hrc1)] at hrun
            simp only [Option.some.injEq, Prod.mk.injEq] at hrun
            exact absurd hrun.1 hrc1

lemma copy_loop_over_inv (src : List Nat) (L bs : Nat) (hL : L ≠ 0) :
    ∀ (reads : List ReadEv) (writes : List WriteEv) (sp dp : Nat)
      (dst : List Nat) (remain : Nat) (rc : Nat) (dst' : List Nat),
    wfReads reads → wfWrites writes →
    src.length - sp < remain →
    copy_loop src L bs sp dp dst remain reads writes = some (rc, dst') →
    rc ≠ 0 := by
  intro reads
  induction reads with
  | nil =>
    intro writes sp dp dst remain rc dst' _ _ hover hrun
    cases remain with
    | zero => omega
    | succ r => exact absurd hrun (by rw [copy_loop_exhausted]; simp)
  | cons rev reads ih =>
    intro writes sp dp dst remain rc dst' hwr hww hover hrun
    have hwr' : wfReads reads := fun e he => hwr e (List.mem_cons_of_mem _ he)
    cases remain with
    | zero => omega
    | succ r =>
      cases rev with
      | eintr =>
        rw [copy_loop_eintr] at hrun
        exact ih writes sp dp dst (r + 1) rc dst' hwr' hww hover hrun
      | err e =>
        rw [copy_loop_err] at hrun
        simp only [Option.some.injEq, Prod.mk.injEq] at hrun
        have hne0 := hwr (ReadEv.err e) (List.mem_cons_self _ _)
        simp only [readEvWf, decide_eq_true_eq] at hne0
        intro h0
        exact hne0 (by omega)
      | ok =>
        simp only [copy_loop] at hrun
        by_cases h0rn : min (min bs (r + 1)) (src.length - sp) = 0
        · rw [if_neg (fun hc => hL hc.2),
            if_pos ⟨h0rn, Nat.succ_ne_zero r⟩] at hrun
          simp only [Option.some.injEq, Prod.mk.injEq] at hrun
          intro h0
          rw [← hrun.1] at h0
          exact absurd h0 (by simp [ERANGE])
        · rw [if_neg (fun hc => hL hc.2), if_neg (fun hc => h0rn hc.1)] at hrun
          have hrn_le : min (min bs (r + 1)) (src.length - sp) ≤
              src.length - sp := Nat.min_le_right _ _
          rcases hwb : write_block dst dp
              ((src.drop sp).take (min (min bs (r + 1)) (src.length - sp)))
              writes with _ | ⟨rc1, dst2, dp2, writes2⟩
          · rw [hwb] at hrun; exact absurd hrun (by simp)
          · rw [hwb] at hrun
            dsimp only at hrun
            rw [if_pos hL] at hrun
            by_cases hrc1 : rc1 = 0
            · rw [if_neg (show ¬rc1 ≠ 0 by simp [hrc1])] at hrun
              obtain ⟨hww2, _⟩ :=
                write_block_ok_of_wf writes _ dst dp rc1 dst2 dp2 writes2 hww hwb
              exact ih writes2 (sp + min (min bs (r + 1)) (src.length - sp))
                dp2 dst2 (r + 1 - min (min bs (r + 1)) (src.length - sp)) rc dst'
                hwr' hww2 (by omega) hrun
            · rw [if_pos (show rc1 ≠ 0 from hrc1)] at hrun
              simp only [Option.some.injEq, Prod.mk.injEq] at hrun
              rw [← hrun.1]
              exact hrc1

lemma take_drop_ne_nil (src : List Nat) (sp n : Nat) (hn : 0 < n)
    (hsp : sp < src.length) : (src.drop sp).take n ≠ [] := by
  have : 0 < ((src.drop sp).take n).length := by
    rw [List.length_take, List.length_drop]
    omega
  exact List.length_pos.mp this

lemma copy_loop_fixed_happy (src : List Nat) (L bs k : Nat) (hL : L ≠ 0)
    (hbs : 0 < bs) (hk : bs ≤ k) :
    ∀ (R sp dp : Nat) (dst : List Nat) (remain : Nat),
    remain ≤ src.length - sp → remain ≤ R * bs →
    copy_loop src L bs sp dp dst remain (List.replicate R ReadEv.ok)
      (List.replicate R (WriteEv.ok k)) =
      some (0, writeAt dst dp ((src.drop sp).take remain)) := by
  intro R
  induction R with
  | zero =>
    intro sp dp dst remain _ h2
    have hr0 : remain = 0 := by omega
    subst hr0
    rw [copy_loop_zero]
    simp [writeAt_nil]
  | succ R ih =>
    intro sp dp dst remain h1 h2
    cases remain with
    | zero => rw [copy_loop_zero]; simp [writeAt_nil]
    | succ r =>
      rw [List.replicate_succ, List.replicate_succ]
      have hrn_pos : 0 < min (min bs (r + 1)) (src.length - sp) := by omega
      have hrn_le : min (min bs (r + 1)) (src.length - sp) ≤
          src.length - sp := Nat.min_le_right _ _
      have hrn_r : min (min bs (r + 1)) (src.length - sp) ≤ r + 1 := by
        have := Nat.min_le_left bs (r + 1)
        have := Nat.min_le_left (min bs (r + 1)) (src.length - sp)
        omega
      have hrn_bs : min (min bs (r + 1)) (src.length - sp) ≤ bs := by
        have := Nat.min_le_left bs (r + 1)
        have := Nat.min_le_left (min bs (r + 1)) (src.length - sp)
        omega
      simp only [copy_loop]
      rw [if_neg (fun hc => hL hc.2), if_neg (fun hc => by omega : ¬_)]
      have hne : (src.drop sp).take
          (min (min bs (r + 1)) (src.length - sp)) ≠ [] :=
        take_drop_ne_nil src sp _ hrn_pos (by omega)
      have hdlen : ((src.drop sp).take
          (min (min bs (r + 1)) (src.length - sp))).length =
          min (min bs (r + 1)) (src.length - sp) := by
        rw [List.length_take, List.length_drop]
        omega
      rw [write_block_full dst dp _ hne k (by omega) _]
      dsimp only
      rw [if_neg (show ¬(0 : Nat) ≠ 0 by simp), if_pos hL]
      have hmul : (R + 1) * bs = R * bs + bs := by ring
      rw [ih (sp + min (min bs (r + 1)) (src.length - sp))
        (dp + ((src.drop sp).take (min (min bs (r + 1)) (src.length - sp))).length)
        (writeAt dst dp ((src.drop sp).take (min (min bs (r + 1)) (src.length - sp))))
        (r + 1 - min (min bs (r + 1)) (src.length - sp))
        (by omega) (by omega)]
      rw [writeAt_writeAt]
      rw [drop_take_split src sp
        (min (min bs (r + 1)) (src.length - sp)) (r + 1) hrn_r]

lemma copy_loop_ok (src : List Nat) (L bs sp dp r : Nat) (dst : List Nat)
    (reads : List ReadEv) (writes : List WriteEv) :
    copy_loop src L bs sp dp dst (r + 1) (ReadEv.ok :: reads) writes =
      (if min (min bs (r + 1)) (src.length - sp) = 0 ∧ L = 0 then
        some (0, dst)
      else if min (min bs (r + 1)) (src.length - sp) = 0 ∧ r + 1 ≠ 0 then
        some (ERANGE, dst)
      else
        match write_block dst dp
            ((src.drop sp).take (min (min bs (r + 1)) (src.length - sp)))
            writes with
        | none => none
        | some (rc, dst2, dp2, writes2) =>
          if rc ≠ 0 then some (rc, dst2)
          else
            copy_loop src L bs
              (sp + min (min bs (r + 1)) (src.length - sp)) dp2 dst2
              (if L ≠ 0 then r + 1 - min (min bs (r + 1)) (src.length - sp)
               else r + 1)
              reads writes2) := rfl

lemma copy_loop_eof_happy (src : List Nat) (bs k : Nat) (hbs : 0 < bs)
    (hk : bs ≤ k) :
    ∀ (R sp dp : Nat) (dst : List Nat),
    1 ≤ R → src.length - sp ≤ (R - 1) * bs →
    copy_loop src 0 bs sp dp dst bs (List.replicate R ReadEv.ok)
      (List.replicate R (WriteEv.ok k)) =
      some (0, writeAt dst dp (src.drop sp)) := by
  obtain ⟨B, rfl⟩ : ∃ B, bs = B + 1 := ⟨bs - 1, by omega⟩
  intro R
  induction R with
  | zero => intro sp dp dst hR _; omega
  | succ R ih =>
    intro sp dp dst _ h
    rw [Nat.add_sub_cancel] at h
    rw [List.replicate_succ, List.replicate_succ]
    by_cases hav : src.length - sp = 0
    · rw [copy_loop_ok, if_pos ⟨by omega, rfl⟩]
      have hdropnil : src.drop sp = [] := by
        rw [List.drop_eq_nil_iff]; omega
      rw [hdropnil, writeAt_nil]
    · have hR1 : 1 ≤ R := by
        rcases Nat.eq_zero_or_pos R with hR0 | h1
        · subst hR0; simp only [Nat.zero_mul] at h; omega
        · exact h1
      have hrn_pos : 0 < min (min (B + 1) (B + 1)) (src.length - sp) := by omega
      have hrn_le : min (min (B + 1) (B + 1)) (src.length - sp) ≤
          src.length - sp := Nat.min_le_right _ _
      have hrn_bs : min (min (B + 1) (B + 1)) (src.length - sp) ≤ B + 1 := by
        have := Nat.min_le_left (min (B + 1) (B + 1)) (src.length - sp)
        have := Nat.min_le_left (B + 1) (B + 1)
        omega
      rw [copy_loop_ok]
      rw [if_neg (fun hc => by omega : ¬_), if_neg (fun hc => by omega : ¬_)]
      have hne : (src.drop sp).take
          (min (min (B + 1) (B + 1)) (src.length - sp)) ≠ [] :=
        take_drop_ne_nil src sp _ hrn_pos (by omega)
      have hdlen : ((src.drop sp).take
          (min (min (B + 1) (B + 1)) (src.length - sp))).length =
          min (min (B + 1) (B + 1)) (src.length - sp) := by
        rw [List.length_take, List.length_drop]
        omega
      rw [write_block_full dst dp _ hne k (by omega) _]
      dsimp only
      rw [if_neg (show ¬(0 : Nat) ≠ 0 by simp),
        if_neg (show ¬(0 : Nat) ≠ 0 by simp)]
      have hmul2 : R * (B + 1) = (R - 1) * (B + 1) + (B + 1) := by
        have hR' : R - 1 + 1 = R := by omega
        calc R * (B + 1) = (R - 1 + 1) * (B + 1) := by rw [hR']
          _ = (R - 1) * (B + 1) + (B + 1) := by ring
      rw [ih (sp + min (min (B + 1) (B + 1)) (src.length - sp))
        (dp + ((src.drop sp).take
          (min (min (B + 1) (B + 1)) (src.length - sp))).length)
        (writeAt dst dp ((src.drop sp).take
          (min (min (B + 1) (B + 1)) (src.length - sp))))
        hR1 (by omega)]
      rw [writeAt_writeAt, drop_take_append src sp _]

lemma copy_loop_over_happy (src : List Nat) (L bs k : Nat) (hL : L ≠ 0)
    (hbs : 0 < bs) (hk : bs ≤ k) :
    ∀ (R sp dp : Nat) (dst : List Nat) (remain : Nat),
    1 ≤ R → src.length - sp < remain → src.length - sp ≤ (R - 1) * bs →
    copy_loop src L bs sp dp dst remain (List.replicate R ReadEv.ok)
      (List.replicate R (WriteEv.ok k)) =
      some (ERANGE, writeAt dst dp (src.drop sp)) := by
  intro R
  induction R with
  | zero => intro sp dp dst remain hR _ _; omega
  | succ R ih =>
    intro sp dp dst remain _ hover h
    rw [Nat.add_sub_cancel] at h
    obtain ⟨r, rfl⟩ : ∃ r, remain = r + 1 := ⟨remain - 1, by omega⟩
    rw [List.replicate_succ, List.replicate_succ]
    by_cases hav : src.length - sp = 0
    · rw [copy_loop_ok, if_neg (fun hc => hL hc.2),
        if_pos ⟨by omega, Nat.succ_ne_zero r⟩]
      have hdropnil : src.drop sp = [] := by
        rw [List.drop_eq_nil_iff]; omega
      rw [hdropnil, writeAt_nil]
    · have hR1 : 1 ≤ R := by
        rcases Nat.eq_zero_or_pos R with hR0 | h1
        · subst hR0; simp only [Nat.zero_mul] at h; omega
        · exact h1
      have hrn_pos : 0 < min (min bs (r + 1)) (src.length - sp) := by omega
      have hrn_le : min (min bs (r + 1)) (src.length - sp) ≤
          src.length - sp := Nat.min_le_right _ _
      have hrn_bs : min (min bs (r + 1)) (src.length - sp) ≤ bs := by
        have := Nat.min_le_left bs (r + 1)
        have := Nat.min_le_left (min bs (r + 1)) (src.length - sp)
        omega
      rw [copy_loop_ok]
      rw [if_neg (fun hc => hL hc.2), if_neg (fun hc => by omega : ¬_)]
      have hne : (src.drop sp).take
          (min (min bs (r + 1)) (src.length - sp)) ≠ [] :=
        take_drop_ne_nil src sp _ hrn_pos (by omega)
      have hdlen : ((src.drop sp).take
          (min (min bs (r + 1)) (src.length - sp))).length =
          min (min bs (r + 1)) (src.length - sp) := by
        rw [List.length_take, List.length_drop]
        omega
      rw [write_block_full dst dp _ hne k (by omega) _]
      dsimp only
      rw [if_neg (show ¬(0 : Nat) ≠ 0 by simp), if_pos hL]
      have hmul2 : R * bs = (R - 1) * bs + bs := by
        have hR' : R - 1 + 1 = R := by omega
        calc R * bs = (R - 1 + 1) * bs := by rw [hR']
          _ = (R - 1) * bs + bs := by ring
      rw [ih (sp + min (min bs (r + 1)) (src.length - sp))
        (dp + ((src.drop sp).take (min (min bs (r + 1)) (src.length - sp))).length)
        (writeAt dst dp ((src.drop sp).take (min (min bs (r + 1)) (src.length - sp))))
        (r + 1 - min (min bs (r + 1)) (src.length - sp))
        hR1 (by omega) (by omega)]
      rw [writeAt_writeAt, drop_take_append src sp _]

/-! ### Behaviour of `deep_copy_file_range_impl` -/

lemma happyEnv_reads_wf (n k : Nat) : wfReads (happyEnv n k).reads := by
  intro e he
  rw [List.eq_of_mem_replicate he]
  rfl

lemma happyEnv_writes_wf (n k : Nat) : wfWrites (happyEnv n k).writes := by
  intro e he
  rw [List.eq_of_mem_replicate he]
  rfl

lemma happyEnv_wf (n k : Nat) : (happyEnv n k).wf :=
  ⟨rfl, rfl, happyEnv_reads_wf n k, happyEnv_writes_wf n k⟩

lemma deep_copy_seekSrc_err (env : CopyEnv) (src dst : List Nat)
    (so dof L bs e : Nat) (h : env.seekSrc = SeekRes.err e) :
    deep_copy_file_range_impl env src dst so dof L bs = some (e, dst) := by
  rw [deep_copy_file_range_impl, h]

lemma deep_copy_seekDst_err (env : CopyEnv) (src dst : List Nat)
    (so dof L bs e : Nat) (h1 : env.seekSrc = SeekRes.ok)
    (h2 : env.seekDst = SeekRes.err e) :
    deep_copy_file_range_impl env src dst so dof L bs = some (e, dst) := by
  rw [deep_copy_file_range_impl, h1, h2]

lemma deep_copy_malloc_fail (env : CopyEnv) (src dst : List Nat)
    (so dof L bs : Nat) (h1 : env.seekSrc = SeekRes.ok)
    (h2 : env.seekDst = SeekRes.ok) (h3 : env.mallocOk = false) :
    deep_copy_file_range_impl env src dst so dof L bs = some (ENOMEM, dst) := by
  rw [deep_copy_file_range_impl, h1, h2]
  simp [h3]

lemma deep_copy_run (env : CopyEnv) (src dst : List Nat) (so dof L bs : Nat)
    (h1 : env.seekSrc = SeekRes.ok) (h2 : env.seekDst = SeekRes.ok)
    (h3 : env.mallocOk = true) :
    deep_copy_file_range_impl env src dst so dof L bs =
      copy_loop src L bs so dof dst (if L ≠ 0 then L else bs)
        env.reads env.writes := by
  rw [deep_copy_file_range_impl, h1, h2]
  simp [h3]

lemma deep_copy_eof_inv (env : CopyEnv) (hwf : env.wf) (src dst : List Nat)
    (so dof bs : Nat) (hbs : 0 < bs) (dst' : List Nat)
    (hrun : deep_copy_file_range_impl env src dst so dof 0 bs =
      some (0, dst')) :
    dst' = writeAt dst dof (src.drop so) := by
  obtain ⟨hws, hwd, hwr, hww⟩ := hwf
  rcases hs : env.seekSrc with _ | e
  · rcases hd : env.seekDst with _ | e
    · rcases hm : env.mallocOk with _ | _
      · rw [deep_copy_malloc_fail env src dst so dof 0 bs hs hd hm] at hrun
        simp only [Option.some.injEq, Prod.mk.injEq] at hrun
        exact absurd hrun.1 (by simp [ENOMEM])
      · rw [deep_copy_run env src dst so dof 0 bs hs hd hm] at hrun
        rw [if_neg (by simp)] at hrun
        exact copy_loop_eof_inv src bs hbs env.reads env.writes so dof dst 0
          dst' hwr hww hrun rfl
    · rw [deep_copy_seekDst_err env src dst so dof 0 bs e hs hd] at hrun
      simp only [Option.some.injEq, Prod.mk.injEq] at hrun
      rw [hd] at hwd
      simp only [seekResWf, decide_eq_true_eq] at hwd
      exact absurd (by omega : e = 0) hwd
  · rw [deep_copy_seekSrc_err env src dst so dof 0 bs e hs] at hrun
    simp only [Option.some.injEq, Prod.mk.injEq] at hrun
    rw [hs] at hws
    simp only [seekResWf, decide_eq_true_eq] at hws
    exact absurd (by omega : e = 0) hws

lemma deep_copy_fixed_inv (env : CopyEnv) (hwf : env.wf) (src dst : List Nat)
    (so dof L bs : Nat) (hL : L ≠ 0) (hin : L ≤ src.length - so)
    (dst' : List Nat)
    (hrun : deep_copy_file_range_impl env src dst so dof L bs =
      some (0, dst')) :
    dst' = writeAt dst dof ((src.drop so).take L) := by
  obtain ⟨hws, hwd, hwr, hww⟩ := hwf
  rcases hs : env.seekSrc with _ | e
  · rcases hd : env.seekDst with _ | e
    · rcases hm : env.mallocOk with _ | _
      · rw [deep_copy_malloc_fail env src dst so dof L bs hs hd hm] at hrun
        simp only [Option.some.injEq, Prod.mk.injEq] at hrun
        exact absurd hrun.1 (by simp [ENOMEM])
      · rw [deep_copy_run env src dst so dof L bs hs hd hm] at hrun
        rw [if_pos hL] at hrun
        exact copy_loop_fixed_inv src L bs hL env.reads env.writes so dof dst L
          0 dst' hwr hww hin hrun rfl
    · rw [deep_copy_seekDst_err env src dst so dof L bs e hs hd] at hrun
      simp only [Option.some.injEq, Prod.mk.injEq] at hrun
      rw [hd] at hwd
      simp only [seekResWf, decide_eq_true_eq] at hwd
      exact absurd (by omega : e = 0) hwd
  · rw [deep_copy_seekSrc_err env src dst so dof L bs e hs] at hrun
    simp only [Option.some.injEq, Prod.mk.injEq] at hrun
    rw [hs] at hws
    simp only [seekResWf, decide_eq_true_eq] at hws
    exact absurd (by omega : e = 0) hws

lemma deep_copy_over_inv (env : CopyEnv) (hwf : env.wf) (src dst : List Nat)
    (so dof L bs : Nat) (hL : L ≠ 0) (hover : src.length - so < L)
    (rc : Nat) (dst' : List Nat)
    (hrun : deep_copy_file_range_impl env src dst so dof L bs =
      some (rc, dst')) :
    rc ≠ 0 := by
  obtain ⟨hws, hwd, hwr, hww⟩ := hwf
  rcases hs : env.seekSrc with _ | e
  · rcases hd : env.seekDst with _ | e
    · rcases hm : env.mallocOk with _ | _
      · rw [deep_copy_malloc_fail env src dst so dof L bs hs hd hm] at hrun
        simp only [Option.some.injEq, Prod.mk.injEq] at hrun
        rw [← hrun.1]
        simp [ENOMEM]
      · rw [deep_copy_run env src dst so dof L bs hs hd hm] at hrun
        rw [if_pos hL] at hrun
        exact copy_loop_over_inv src L bs hL env.reads env.writes so dof dst L
          rc dst' hwr hww hover hrun
    · rw [deep_copy_seekDst_err env src dst so dof L bs e hs hd] at hrun
      simp only [Option.some.injEq, Prod.mk.injEq] at hrun
      rw [hd] at hwd
      simp only [seekResWf, decide_eq_true_eq] at hwd
      rw [← hrun.1]
      exact hwd
  · rw [deep_copy_seekSrc_err env src dst so dof L bs e hs] at hrun
    simp only [Option.some.injEq, Prod.mk.injEq] at hrun
    rw [hs] at hws
    simp only [seekResWf, decide_eq_true_eq] at hws
    rw [← hrun.1]
    exact hws

lemma deep_copy_happy_eof (src dst : List Nat) (so dof bs k R : Nat)
    (hbs : 0 < bs) (hk : bs ≤ k) (hR : 1 ≤ R)
    (hcov : src.length - so ≤ (R - 1) * bs) :
    deep_copy_file_range_impl (happyEnv R k) src dst so dof 0 bs =
      some (0, writeAt dst dof (src.drop so)) := by
  rw [deep_copy_run _ _ _ _ _ _ _ rfl rfl rfl, if_neg (by simp)]
  exact copy_loop_eof_happy src bs k hbs hk R so dof dst hR hcov

lemma deep_copy_happy_fixed (src dst : List Nat) (so dof L bs k R : Nat)
    (hL : L ≠ 0) (hbs : 0 < bs) (hk : bs ≤ k)
    (hin : L ≤ src.length - so) (hRL : L ≤ R * bs) :
    deep_copy_file_range_impl (happyEnv R k) src dst so dof L bs =
      some (0, writeAt dst dof ((src.drop so).take L)) := by
  rw [deep_copy_run _ _ _ _ _ _ _ rfl rfl rfl, if_pos hL]
  exact copy_loop_fixed_happy src L bs k hL hbs hk R so dof dst L hin hRL

lemma deep_copy_happy_over (src dst : List Nat) (so dof L bs k R : Nat)
    (hL : L ≠ 0) (hbs : 0 < bs) (hk : bs ≤ k) (hR : 1 ≤ R)
    (hover : src.length - so < L) (hcov : src.length - so ≤ (R - 1) * bs) :
    deep_copy_file_range_impl (happyEnv R k) src dst so dof L bs =
      some (ERANGE, writeAt dst dof (src.drop so)) := by
  rw [deep_copy_run _ _ _ _ _ _ _ rfl rfl rfl, if_pos hL]
  exact copy_loop_over_happy src L bs k hL hbs hk R so dof dst L hR hover hcov

/-! ### Behaviour of the public operations -/

lemma qtm_clone_file_fb_native_fail (env : CloneEnv) (src_fd dst_fd : Int)
    (hs : 0 ≤ src_fd) (hd : 0 ≤ dst_fd) (src dst : List Nat) (bs : Nat)
    (hbs : 0 < bs) (hn : env.native ≠ 0) :
    qtm_clone_file env src_fd dst_fd src dst true bs =
      deep_copy_file_range_impl env.copy src dst 0 0 0 bs := by
  have hv : ¬(src_fd < 0 ∨ dst_fd < 0 ∨ ((true : Bool) = true ∧ bs = 0)) := by
    push_neg
    exact ⟨by omega, by omega, fun _ => by omega⟩
  rw [qtm_clone_file, if_neg hv, if_neg hn, if_pos rfl]

lemma qtm_clone_file_nofb_native_fail (env : CloneEnv) (src_fd dst_fd : Int)
    (hs : 0 ≤ src_fd) (hd : 0 ≤ dst_fd) (src dst : List Nat) (bs : Nat)
    (hn : env.native ≠ 0) :
    qtm_clone_file env src_fd dst_fd src dst false bs =
      some (env.native, dst) := by
  have hv : ¬(src_fd < 0 ∨ dst_fd < 0 ∨ ((false : Bool) = true ∧ bs = 0)) := by
    push_neg
    exact ⟨by omega, by omega, fun h => absurd h (by simp)⟩
  rw [qtm_clone_file, if_neg hv, if_neg hn, if_neg (by simp)]

lemma qtm_clone_file_range_fb_native_fail (env : CloneEnv)
    (src_fd dst_fd so dof : Int) (hs : 0 ≤ src_fd) (hd : 0 ≤ dst_fd)
    (hso : 0 ≤ so) (hdo : 0 ≤ dof) (src dst : List Nat) (L bs : Nat)
    (hbs : 0 < bs) (hn : env.native ≠ 0) :
    qtm_clone_file_range env src_fd dst_fd so dof src dst L true bs =
      deep_copy_file_range_impl env.copy src dst so.toNat dof.toNat L bs := by
  have hv : ¬(src_fd < 0 ∨ dst_fd < 0 ∨ so < 0 ∨ dof < 0 ∨
      ((true : Bool) = true ∧ bs = 0)) := by
    push_neg
    exact ⟨by omega, by omega, by omega, by omega, fun _ => by omega⟩
  rw [qtm_clone_file_range, if_neg hv, if_neg hn, if_pos rfl]

lemma qtm_clone_file_range_nofb_native_fail (env : CloneEnv)
    (src_fd dst_fd so dof : Int) (hs : 0 ≤ src_fd) (hd : 0 ≤ dst_fd)
    (hso : 0 ≤ so) (hdo : 0 ≤ dof) (src dst : List Nat) (L bs : Nat)
    (hn : env.native ≠ 0) :
    qtm_clone_file_range env src_fd dst_fd so dof src dst L false bs =
      some (env.native, dst) := by
  have hv : ¬(src_fd < 0 ∨ dst_fd < 0 ∨ so < 0 ∨ dof < 0 ∨
      ((false : Bool) = true ∧ bs = 0)) := by
    push_neg
    exact ⟨by omega, by omega, by omega, by omega, fun h => absurd h (by simp)⟩
  rw [qtm_clone_file_range, if_neg hv, if_neg hn, if_neg (by simp)]

lemma qtm_range_success_shape (env : CloneEnv) (hwf : env.copy.wf)
    (src_fd dst_fd so dof : Int) (src dst : List Nat) (L bs : Nat)
    (fb : Bool) (hL : L ≠ 0) (hin : so.toNat + L ≤ src.length)
    (dst' : List Nat)
    (hrun : qtm_clone_file_range env src_fd dst_fd so dof src dst L fb bs =
      some (0, dst')) :
    dst' = writeAt dst dof.toNat ((src.drop so.toNat).take L) := by
  rw [qtm_clone_file_range] at hrun
  by_cases hval : src_fd < 0 ∨ dst_fd < 0 ∨ so < 0 ∨ dof < 0 ∨
      (fb = true ∧ bs = 0)
  · rw [if_pos hval] at hrun
    simp only [Option.some.injEq, Prod.mk.injEq] at hrun
    exact absurd hrun.1 (by simp [EINVAL])
  · rw [if_neg hval] at hrun
    by_cases hn : env.native = 0
    · rw [if_pos hn] at hrun
      simp only [Option.some.injEq, Prod.mk.injEq] at hrun
      rw [← hrun.2, native_range_effect, if_neg hL]
    · rw [if_neg hn] at hrun
      cases fb with
      | false =>
        rw [if_neg (by simp)] at hrun
        simp only [Option.some.injEq, Prod.mk.injEq] at hrun
        exact absurd hrun.1 hn
      | true =>
        rw [if_pos rfl] at hrun
        exact deep_copy_fixed_inv env.copy hwf src dst so.toNat dof.toNat L bs
          hL (by omega) dst' hrun

/-! ### The claims -/

/-- C1: with fallback enabled and a failing native whole-file clone,
`qtm_clone_file` runs the deep copy over the span `(0, 0, length = 0)`;
whenever it returns `0`, the destination content equals the source content
byte for byte (the destination starts freshly truncated, as the CLI
collaborator guarantees), including when the source size is not a multiple of
the fallback block size; with all-successful reads and writes and enough
events, it does return `0` with that exact content. -/
theorem C1_whole_file_fallback_byte_identical
    (env : CloneEnv) (hwf : env.copy.wf) (src_fd dst_fd : Int)
    (hs : 0 ≤ src_fd) (hd : 0 ≤ dst_fd) (src dst : List Nat) (bs : Nat)
    (hbs : 0 < bs) (hn : env.native ≠ 0) (hlen : dst.length ≤ src.length) :
    (∀ dst', qtm_clone_file env src_fd dst_fd src dst true bs =
        some (0, dst') → dst' = src) ∧
    (∀ R k, 1 ≤ R → bs ≤ k → src.length ≤ (R - 1) * bs →
      qtm_clone_file ⟨env.native, happyEnv R k⟩ src_fd dst_fd src dst true
        bs = some (0, src)) := by
  constructor
  · intro dst' hrun
    rw [qtm_clone_file_fb_native_fail env src_fd dst_fd hs hd src dst bs hbs
      hn] at hrun
    have hshape := deep_copy_eof_inv env.copy hwf src dst 0 0 bs hbs dst' hrun
    rw [hshape, List.drop_zero]
    exact writeAt_zero_covers dst src hlen
  · intro R k hR hk hcov
    rw [qtm_clone_file_fb_native_fail ⟨env.native, happyEnv R k⟩ src_fd
      dst_fd hs hd src dst bs hbs hn]
    rw [show (⟨env.native, happyEnv R k⟩ : CloneEnv).copy = happyEnv R k
      from rfl]
    rw [deep_copy_happy_eof src dst 0 0 bs k R hbs hk hR (by omega)]
    rw [List.drop_zero, writeAt_zero_covers dst src hlen]

/-- C1 witness: the spec scenario — a 10,000-byte source, block size 8192,
native clone failing with some error, fallback enabled — yields a 10,000-byte
byte-identical destination. -/
theorem C1_whole_file_fallback_byte_identical_witness :
    qtm_clone_file ⟨22, happyEnv 3 8192⟩ 3 4 (List.replicate 10000 7) []
      true 8192 = some (0, List.replicate 10000 7) :=
  (C1_whole_file_fallback_byte_identical ⟨22, happyEnv 3 8192⟩
    (happyEnv_wf 3 8192) 3 4 (by decide) (by decide) (List.replicate 10000 7)
    [] 8192 (by decide) (by decide)
    (by simp only [List.length_nil, List.length_replicate]; decide)).2
    3 8192 (by decide) (by decide) (by rw [List.length_replicate]; decide)

/-- C2: for a valid range request with `length > 0` and
`source_offset + length` within the source, whenever a range clone returns
Success (for any well-formed environment and any fallback setting), the
destination bytes at `[destination_offset, destination_offset + length)`
equal the source bytes at `[source_offset, source_offset + length)`. -/
theorem C2_range_success_copies_exact_range (env : CloneEnv)
    (hwf : env.copy.wf) (src_fd dst_fd so dof : Int) (src dst : List Nat)
    (L bs : Nat) (fb : Bool) (hL : 0 < L)
    (hin : so.toNat + L ≤ src.length) (dst' : List Nat)
    (hrun : qtm_clone_file_range env src_fd dst_fd so dof src dst L fb bs =
      some (0, dst')) :
    (dst'.drop dof.toNat).take L = (src.drop so.toNat).take L := by
  have hshape := qtm_range_success_shape env hwf src_fd dst_fd so dof src dst
    L bs fb (by omega) hin dst' hrun
  have hdl : ((src.drop so.toNat).take L).length = L := by
    rw [List.length_take, List.length_drop]
    omega
  have key := writeAt_drop_take dst dof.toNat ((src.drop so.toNat).take L)
  rw [hdl] at key
  rw [hshape, key]

/-- C2 witness: cloning 2 bytes from offset 1 to offset 2 through the
deep-copy fallback succeeds and the copied range matches. -/
theorem C2_range_success_copies_exact_range_witness :
    qtm_clone_file_range ⟨5, happyEnv 3 4⟩ 3 4 1 2 [10, 11, 12, 13, 14]
      [9, 9, 9, 9] 2 true 4 = some (0, [9, 9, 11, 12]) ∧
    (([9, 9, 11, 12] : List Nat).drop 2).take 2 =
      (([10, 11, 12, 13, 14] : List Nat).drop 1).take 2 :=
  ⟨by decide,
   C2_range_success_copies_exact_range ⟨5, happyEnv 3 4⟩ (happyEnv_wf 3 4)
     3 4 1 2 [10, 11, 12, 13, 14] [9, 9, 9, 9] 2 4 true (by decide)
     (by decide) [9, 9, 11, 12] (by decide)⟩

/-- C3: a fixed-length deep copy whose `source_offset + length` exceeds the
source size never returns Success in any well-formed environment, and when
every read and write succeeds it aborts with the distinct range-violation
code `ERANGE` at the read that returns 0 bytes with remainder left. -/
theorem C3_premature_eof_is_erange (src dst : List Nat) (so dof L bs : Nat)
    (hL : 0 < L) (hover : src.length < so + L) :
    (∀ env : CopyEnv, env.wf → ∀ rc dst',
      deep_copy_file_range_impl env src dst so dof L bs = some (rc, dst') →
      rc ≠ 0) ∧
    (∀ R k, 1 ≤ R → 0 < bs → bs ≤ k → src.length - so ≤ (R - 1) * bs →
      deep_copy_file_range_impl (happyEnv R k) src dst so dof L bs =
        some (ERANGE, writeAt dst dof (src.drop so))) := by
  constructor
  · intro env hwf rc dst' hrun
    exact deep_copy_over_inv env hwf src dst so dof L bs (by omega) (by omega)
      rc dst' hrun
  · intro R k hR hbs hk hcov
    exact deep_copy_happy_over src dst so dof L bs k R (by omega) hbs hk hR
      (by omega) hcov

/-- C3 witness: the spec scenario — requesting 50 bytes from offset 100 of a
120-byte source fails with `ERANGE` after copying the 20 available bytes. -/
theorem C3_premature_eof_is_erange_witness :
    deep_copy_file_range_impl (happyEnv 7 4) (List.replicate 120 5) []
      100 0 50 4 =
      some (ERANGE, writeAt [] 0 ((List.replicate 120 5).drop 100)) :=
  (C3_premature_eof_is_erange (List.replicate 120 5) [] 100 0 50 4
    (by decide) (by rw [List.length_replicate]; decide)).2 7 4 (by decide)
    (by decide) (by decide) (by rw [List.length_replicate]; decide)

/-- C4: a deep copy with `length = 0` copies from `source_offset` to source
end of file — a read returning 0 bytes ends the loop successfully — and on
Success the bytes written are exactly the source bytes from `source_offset`
to EOF, whose count is `source_size - source_offset`; with all-successful
events the copy does succeed with that content. -/
theorem C4_length_zero_copies_to_eof (src dst : List Nat) (so dof bs : Nat)
    (hbs : 0 < bs) :
    (∀ env : CopyEnv, env.wf → ∀ dst',
      deep_copy_file_range_impl env src dst so dof 0 bs = some (0, dst') →
      dst' = writeAt dst dof (src.drop so) ∧
        (src.drop so).length = src.length - so) ∧
    (∀ R k, 1 ≤ R → bs ≤ k → src.length - so ≤ (R - 1) * bs →
      deep_copy_file_range_impl (happyEnv R k) src dst so dof 0 bs =
        some (0, writeAt dst dof (src.drop so))) := by
  constructor
  · intro env hwf dst' hrun
    exact ⟨deep_copy_eof_inv env hwf src dst so dof bs hbs dst' hrun,
      List.length_drop so src⟩
  · intro R k hR hk hcov
    exact deep_copy_happy_eof src dst so dof bs k R hbs hk hR hcov

/-- C4 witness: copying to EOF from offset 2 of a 5-byte source writes the
3 remaining bytes. -/
theorem C4_length_zero_copies_to_eof_witness :
    deep_copy_file_range_impl (happyEnv 3 2) [1, 2, 3, 4, 5] [] 2 0 0 2 =
      some (0, writeAt [] 0 (([1, 2, 3, 4, 5] : List Nat).drop 2)) ∧
    (([1, 2, 3, 4, 5] : List Nat).drop 2).length = 5 - 2 :=
  ⟨(C4_length_zero_copies_to_eof [1, 2, 3, 4, 5] [] 2 0 2 (by decide)).2
     3 2 (by decide) (by decide) (by decide),
   ((C4_length_zero_copies_to_eof [1, 2, 3, 4, 5] [] 2 0 2 (by decide)).1
     (happyEnv 3 2) (happyEnv_wf 3 2) (writeAt [] 0
       (([1, 2, 3, 4, 5] : List Nat).drop 2)) (by decide)).2⟩

/-- C5: with fallback disabled, a failing native clone attempt is returned
verbatim by both public operations and the destination is untouched (the
deep-copy engine never runs); with fallback enabled and the native attempt
failing, the result of either operation is exactly the result of the
deep-copy engine — the original native error code plays no further part. -/
theorem C5_fallback_disabled_verbatim_enabled_supersedes (env : CloneEnv)
    (src_fd dst_fd so dof : Int) (hs : 0 ≤ src_fd) (hd : 0 ≤ dst_fd)
    (hso : 0 ≤ so) (hdo : 0 ≤ dof) (src dst : List Nat) (L bs : Nat)
    (hbs : 0 < bs) (hn : env.native ≠ 0) :
    (qtm_clone_file env src_fd dst_fd src dst false bs =
        some (env.native, dst) ∧
      qtm_clone_file_range env src_fd dst_fd so dof src dst L false bs =
        some (env.native, dst)) ∧
    (qtm_clone_file env src_fd dst_fd src dst true bs =
        deep_copy_file_range_impl env.copy src dst 0 0 0 bs ∧
      qtm_clone_file_range env src_fd dst_fd so dof src dst L true bs =
        deep_copy_file_range_impl env.copy src dst so.toNat dof.toNat L bs) :=
  ⟨⟨qtm_clone_file_nofb_native_fail env src_fd dst_fd hs hd src dst bs hn,
    qtm_clone_file_range_nofb_native_fail env src_fd dst_fd so dof hs hd hso
      hdo src dst L bs hn⟩,
   ⟨qtm_clone_file_fb_native_fail env src_fd dst_fd hs hd src dst bs hbs hn,
    qtm_clone_file_range_fb_native_fail env src_fd dst_fd so dof hs hd hso
      hdo src dst L bs hbs hn⟩⟩

/-- C5 witness: a native failure code 7 is passed through verbatim with
fallback off, and with fallback on the result is the deep-copy engine's. -/
theorem C5_fallback_disabled_verbatim_enabled_supersedes_witness :
    (qtm_clone_file ⟨7, happyEnv 2 2⟩ 3 4 [1, 2] [] false 2 =
        some (7, []) ∧
      qtm_clone_file_range ⟨7, happyEnv 2 2⟩ 3 4 1 0 [1, 2] [] 1 false 2 =
        some (7, []) ∧
      qtm_clone_file ⟨7, happyEnv 2 2⟩ 3 4 [1, 2] [] true 2 =
        deep_copy_file_range_impl (happyEnv 2 2) [1, 2] [] 0 0 0 2 ∧
      qtm_clone_file_range ⟨7, happyEnv 2 2⟩ 3 4 1 0 [1, 2] [] 1 true 2 =
        deep_copy_file_range_impl (happyEnv 2 2) [1, 2] [] 1 0 1 2) := by
  have h := C5_fallback_disabled_verbatim_enabled_supersedes ⟨7, happyEnv 2 2⟩
    3 4 1 0 (by decide) (by decide) (by decide) (by decide) [1, 2] [] 1 2
    (by decide) (by decide)
  exact ⟨h.1.1, h.1.2, h.2.1, h.2.2⟩

/-- C6: a negative handle, a negative offset (range mode), or fallback
enabled with a zero block size makes both public operations return the
validation failure `EINVAL` at once, for every environment — no clone
attempt, seek, read, write, or allocation is consulted and the destination
is untouched. -/
theorem C6_validation_rejects_before_io (src_fd dst_fd so dof : Int)
    (src dst : List Nat) (L bs : Nat) (fb : Bool) :
    (src_fd < 0 ∨ dst_fd < 0 ∨ (fb = true ∧ bs = 0) →
      ∀ env : CloneEnv,
        qtm_clone_file env src_fd dst_fd src dst fb bs =
          some (EINVAL, dst) ∧
        qtm_clone_file_range env src_fd dst_fd so dof src dst L fb bs =
          some (EINVAL, dst)) ∧
    (so < 0 ∨ dof < 0 →
      ∀ env : CloneEnv,
        qtm_clone_file_range env src_fd dst_fd so dof src dst L fb bs =
          some (EINVAL, dst)) := by
  constructor
  · intro h env
    constructor
    · rw [qtm_clone_file, if_pos h]
    · rw [qtm_clone_file_range, if_pos (by tauto)]
  · intro h env
    rw [qtm_clone_file_range, if_pos (by tauto)]

/-- C6 witness: a negative source handle and a negative source offset each
fail validation with `EINVAL`, independently of the environment. -/
theorem C6_validation_rejects_before_io_witness :
    (qtm_clone_file ⟨0, happyEnv 1 1⟩ (-1) 4 [1] [2] true 8 =
        some (EINVAL, [2]) ∧
      qtm_clone_file_range ⟨0, happyEnv 1 1⟩ (-1) 4 0 0 [1] [2] 1 true 8 =
        some (EINVAL, [2])) ∧
    qtm_clone_file_range ⟨0, happyEnv 1 1⟩ 3 4 (-1) 0 [1] [2] 1 true 8 =
      some (EINVAL, [2]) :=
  ⟨(C6_validation_rejects_before_io (-1) 4 0 0 [1] [2] 1 8 true).1
     (Or.inl (by decide)) ⟨0, happyEnv 1 1⟩,
   (C6_validation_rejects_before_io 3 4 (-1) 0 [1] [2] 1 8 true).2
     (Or.inl (by decide)) ⟨0, happyEnv 1 1⟩⟩

/-- C7: the deep-copy engine seeks the source first and then the
destination: a source-seek failure is returned as-is (whatever the
destination seek would do), then a destination-seek failure as-is, and a
buffer-allocation failure yields `ENOMEM`; in each case the destination is
untouched and the read/write traces are never consulted. -/
theorem C7_seek_then_alloc_failures_abort (src dst : List Nat)
    (so dof L bs : Nat) :
    (∀ env : CopyEnv, ∀ e, env.seekSrc = SeekRes.err e →
      deep_copy_file_range_impl env src dst so dof L bs = some (e, dst)) ∧
    (∀ env : CopyEnv, ∀ e, env.seekSrc = SeekRes.ok →
      env.seekDst = SeekRes.err e →
      deep_copy_file_range_impl env src dst so dof L bs = some (e, dst)) ∧
    (∀ env : CopyEnv, env.seekSrc = SeekRes.ok → env.seekDst = SeekRes.ok →
      env.mallocOk = false →
      deep_copy_file_range_impl env src dst so dof L bs =
        some (ENOMEM, dst)) :=
  ⟨fun env e h => deep_copy_seekSrc_err env src dst so dof L bs e h,
   fun env e h1 h2 => deep_copy_seekDst_err env src dst so dof L bs e h1 h2,
   fun env h1 h2 h3 => deep_copy_malloc_fail env src dst so dof L bs h1 h2 h3⟩

/-- C7 witness: a source-seek failure 6 (even with the destination seek also
failing), a destination-seek failure 9, and an allocation failure each abort
with their code, leaving the destination untouched. -/
theorem C7_seek_then_alloc_failures_abort_witness :
    deep_copy_file_range_impl
      ⟨SeekRes.err 6, SeekRes.err 9, true, [], []⟩ [1, 2] [8] 0 0 0 4 =
      some (6, [8]) ∧
    deep_copy_file_range_impl
      ⟨SeekRes.ok, SeekRes.err 9, true, [], []⟩ [1, 2] [8] 0 0 0 4 =
      some (9, [8]) ∧
    deep_copy_file_range_impl
      ⟨SeekRes.ok, SeekRes.ok, false, [], []⟩ [1, 2] [8] 0 0 0 4 =
      some (ENOMEM, [8]) :=
  ⟨(C7_seek_then_alloc_failures_abort [1, 2] [8] 0 0 0 4).1
     ⟨SeekRes.err 6, SeekRes.err 9, true, [], []⟩ 6 rfl,
   (C7_seek_then_alloc_failures_abort [1, 2] [8] 0 0 0 4).2.1
     ⟨SeekRes.ok, SeekRes.err 9, true, [], []⟩ 9 rfl rfl,
   (C7_seek_then_alloc_failures_abort [1, 2] [8] 0 0 0 4).2.2
     ⟨SeekRes.ok, SeekRes.ok, false, [], []⟩ rfl rfl rfl⟩

/-- C8: an interrupted read is retried without altering the remaining count
and never by itself fails; a read failure aborts the loop with that `errno`;
an interrupted write is retried; a write failure aborts with that `errno`;
and a successful `write_block` in a well-formed environment has written the
full block at the destination position. -/
theorem C8_eintr_retried_other_errors_abort (src : List Nat) (L bs : Nat) :
    (∀ sp dp r (dst : List Nat) reads writes,
      copy_loop src L bs sp dp dst (r + 1) (ReadEv.eintr :: reads) writes =
        copy_loop src L bs sp dp dst (r + 1) reads writes) ∧
    (∀ sp dp r e (dst : List Nat) reads writes,
      copy_loop src L bs sp dp dst (r + 1) (ReadEv.err e :: reads) writes =
        some (e, dst)) ∧
    (∀ (dst : List Nat) pos b d evs,
      write_block dst pos (b :: d) (WriteEv.eintr :: evs) =
        write_block dst pos (b :: d) evs) ∧
    (∀ (dst : List Nat) pos b d e evs,
      write_block dst pos (b :: d) (WriteEv.err e :: evs) =
        some (e, dst, pos, evs)) ∧
    (∀ (dst data : List Nat) pos evs rc dst2 pos2 evs2, wfWrites evs →
      write_block dst pos data evs = some (rc, dst2, pos2, evs2) → rc = 0 →
      dst2 = writeAt dst pos data ∧ pos2 = pos + data.length) :=
  ⟨fun sp dp r dst reads writes =>
     copy_loop_eintr src L bs sp dp r dst reads writes,
   fun sp dp r e dst reads writes =>
     copy_loop_err src L bs sp dp r e dst reads writes,
   fun dst pos b d evs => write_block_eintr dst pos b d evs,
   fun dst pos b d e evs => write_block_err dst pos b d e evs,
   fun dst data pos evs rc dst2 pos2 evs2 hww hrun h0 =>
     (write_block_ok_of_wf evs data dst pos rc dst2 pos2 evs2 hww hrun).2 h0⟩

/-- C8 witness: an interrupted read then a nonzero read error; an
interrupted write then a write error; and a full two-event short-write
completion. -/
theorem C8_eintr_retried_other_errors_abort_witness :
    copy_loop [1, 2] 2 2 0 0 [] 2 [ReadEv.eintr, ReadEv.err 5] [] =
      copy_loop [1, 2] 2 2 0 0 [] 2 [ReadEv.err 5] [] ∧
    copy_loop [1, 2] 2 2 0 0 [] 2 [ReadEv.err 5] [] = some (5, []) ∧
    write_block [] 0 [1, 2] [WriteEv.eintr, WriteEv.err 3] =
      write_block [] 0 [1, 2] [WriteEv.err 3] ∧
    write_block [] 0 [1, 2] [WriteEv.err 3] = some (3, [], 0, []) ∧
    ([1, 2] : List Nat) = writeAt [] 0 [1, 2] ∧ (2 : Nat) = 0 + 2 := by
  have h := C8_eintr_retried_other_errors_abort [1, 2] 2 2
  refine ⟨h.1 0 0 1 [] [ReadEv.err 5] [],
    h.2.1 0 0 1 5 [] [] [],
    h.2.2.1 [] 0 1 [2] [WriteEv.err 3],
    h.2.2.2.1 [] 0 1 [2] 3 [],
    h.2.2.2.2 [] [1, 2] 0 [WriteEv.ok 1, WriteEv.ok 1] 0 [1, 2] 2 []
      (by decide) (by decide) rfl⟩

/-- C9: a successful range clone leaves destination bytes below the
destination offset and at or beyond `destination_offset + length`
unchanged; the embedding's operations read the source only (its content
appears solely as an input) and their sole effect is the returned
destination content. -/
theorem C9_success_frames_destination (env : CloneEnv) (hwf : env.copy.wf)
    (src_fd dst_fd so dof : Int) (src dst : List Nat) (L bs : Nat)
    (hL : 0 < L) (_hn : env.native ≠ 0)
    (hin : so.toNat + L ≤ src.length) (dst' : List Nat)
    (hrun : qtm_clone_file_range env src_fd dst_fd so dof src dst L true bs =
      some (0, dst')) :
    (∀ i, i < dof.toNat → i < dst.length → dst'[i]? = dst[i]?) ∧
    (∀ i, dof.toNat + L ≤ i → dst'[i]? = dst[i]?) := by
  have hshape := qtm_range_success_shape env hwf src_fd dst_fd so dof src dst
    L bs true (by omega) hin dst' hrun
  have hdl : ((src.drop so.toNat).take L).length = L := by
    rw [List.length_take, List.length_drop]
    omega
  constructor
  · intro i h1 h2
    rw [hshape]
    exact writeAt_getElem_low dst dof.toNat _ i h1 h2
  · intro i hge
    rw [hshape]
    exact writeAt_getElem_high dst dof.toNat _ i (by rw [hdl]; omega)

/-- C9 witness: a 1-byte deep-copy range clone into the middle of a 3-byte
destination leaves the bytes on either side unchanged. -/
theorem C9_success_frames_destination_witness :
    qtm_clone_file_range ⟨5, happyEnv 2 1⟩ 3 4 0 1 [7, 8] [1, 2, 3] 1
      true 1 = some (0, [1, 7, 3]) ∧
    ([1, 7, 3] : List Nat)[0]? = ([1, 2, 3] : List Nat)[0]? ∧
    ([1, 7, 3] : List Nat)[2]? = ([1, 2, 3] : List Nat)[2]? :=
  ⟨by decide,
   (C9_success_frames_destination ⟨5, happyEnv 2 1⟩ (happyEnv_wf 2 1) 3 4 0 1
     [7, 8] [1, 2, 3] 1 1 (by decide) (by decide) (by decide) [1, 7, 3]
     (by decide)).1 0 (by decide) (by decide),
   (C9_success_frames_destination ⟨5, happyEnv 2 1⟩ (happyEnv_wf 2 1) 3 4 0 1
     [7, 8] [1, 2, 3] 1 1 (by decide) (by decide) (by decide) [1, 7, 3]
     (by decide)).2 2 (by decide)⟩

/-- C10: the deep-copy loop terminates on finite sources: with
all-successful events and enough of them — one read per block plus, in
copy-to-EOF mode, the final zero-byte read — the engine produces a defined
result in fixed-length mode within bounds, in fixed-length mode past the
source end, and in copy-to-EOF mode; and in copy-to-EOF mode the first read
that returns zero bytes ends the loop immediately with success. -/
theorem C10_loop_terminates (src dst : List Nat) (so dof bs k L R : Nat)
    (hbs : 0 < bs) (hk : bs ≤ k) :
    (0 < L → so + L ≤ src.length → L ≤ R * bs →
      (deep_copy_file_range_impl (happyEnv R k) src dst so dof L bs).isSome) ∧
    (0 < L → src.length < so + L → 1 ≤ R → src.length - so ≤ (R - 1) * bs →
      (deep_copy_file_range_impl (happyEnv R k) src dst so dof L bs).isSome) ∧
    (1 ≤ R → src.length - so ≤ (R - 1) * bs →
      (deep_copy_file_range_impl (happyEnv R k) src dst so dof 0 bs).isSome) ∧
    (∀ sp dp r (d : List Nat) reads writes, src.length ≤ sp →
      copy_loop src 0 bs sp dp d (r + 1) (ReadEv.ok :: reads) writes =
        some (0, d)) := by
  refine ⟨?_, ?_, ?_, ?_⟩
  · intro hL hin hRL
    rw [deep_copy_happy_fixed src dst so dof L bs k R (by omega) hbs hk
      (by omega) hRL]
    rfl
  · intro hL hover hR hcov
    rw [deep_copy_happy_over src dst so dof L bs k R (by omega) hbs hk hR
      (by omega) hcov]
    rfl
  · intro hR hcov
    rw [deep_copy_happy_eof src dst so dof bs k R hbs hk hR hcov]
    rfl
  · intro sp dp r d reads writes hsp
    rw [copy_loop_ok, if_pos ⟨by omega, rfl⟩]

/-- C10 witness: each termination mode at a concrete 5-byte source with
block size 2, and the zero-read exit at end of file. -/
theorem C10_loop_terminates_witness :
    (deep_copy_file_range_impl (happyEnv 3 2) [1, 2, 3, 4, 5] [] 0 0 5
      2).isSome ∧
    (deep_copy_file_range_impl (happyEnv 4 2) [1, 2, 3, 4, 5] [] 3 0 9
      2).isSome ∧
    (deep_copy_file_range_impl (happyEnv 4 2) [1, 2, 3, 4, 5] [] 0 0 0
      2).isSome ∧
    copy_loop [1, 2, 3, 4, 5] 0 2 5 0 [9] 2 [ReadEv.ok] [] =
      some (0, [9]) := by
  have h3 := C10_loop_terminates [1, 2, 3, 4, 5] [] 0 0 2 2 5 3 (by decide)
    (by decide)
  have h4 := C10_loop_terminates [1, 2, 3, 4, 5] [] 3 0 2 2 9 4 (by decide)
    (by decide)
  have h5 := C10_loop_terminates [1, 2, 3, 4, 5] [] 0 0 2 2 0 4 (by decide)
    (by decide)
  exact ⟨h3.1 (by decide) (by decide) (by decide),
    h4.2.1 (by decide) (by decide) (by decide) (by decide),
    h5.2.2.1 (by decide) (by decide),
    h5.2.2.2 5 0 1 [9] [] [] (by decide)⟩

end Libcpr
